import Mathlib

/-!
Shallow embedding (in Lean 4) of the request-matching and dispatch core of the
car-simulator repository: the hex-string utilities and the request byte tree of
`ecu_lua_script.cpp` / `request_byte_tree_node.h`, the PGN parsing of
`j1939_simulator.cpp`, and the UDS dispatch of `uds_receiver.cpp`.
Machine integers are modelled as `Nat` with explicit `% 256` / `% 2^32` casts;
C++ exceptions are modelled with `Except`; the global mutable accumulator of
`createHash` is threaded as explicit state.
-/

namespace CarSim

/-! ## Character-level helpers (C library semantics used by the source) -/

/-- The look-up table `HEX_LUT = "0123456789ABCDEF"` of `ecu_lua_script.cpp`;
indexing past the end never happens in the source (indices are nibbles). -/
def hexCharOf (n : Nat) : Char :=
  match n with
  | 0 => '0' | 1 => '1' | 2 => '2' | 3 => '3'
  | 4 => '4' | 5 => '5' | 6 => '6' | 7 => '7'
  | 8 => '8' | 9 => '9' | 10 => 'A' | 11 => 'B'
  | 12 => 'C' | 13 => 'D' | 14 => 'E' | 15 => 'F'
  | _ + 16 => '0'

/-- Value of a hexadecimal digit as accepted by `strtol(..., 16)`:
`0-9` (codes 48-57), `a-f` (97-102), `A-F` (65-70). -/
def hexDigitVal (c : Char) : Option Nat :=
  if 48 ≤ c.toNat ∧ c.toNat ≤ 57 then some (c.toNat - 48)
  else if 97 ≤ c.toNat ∧ c.toNat ≤ 102 then some (c.toNat - 87)
  else if 65 ≤ c.toNat ∧ c.toNat ≤ 70 then some (c.toNat - 55)
  else none

/-- Value of a decimal digit as accepted by `strtol(..., 10)`: `0-9`. -/
def decDigitVal (c : Char) : Option Nat :=
  if 48 ≤ c.toNat ∧ c.toNat ≤ 57 then some (c.toNat - 48) else none

/-- `isspace` of the C locale: the characters skipped by `strtol`. -/
def isSpaceChar (c : Char) : Bool :=
  c = ' ' ∨ c = '\t' ∨ c = '\n' ∨ c = '\x0b' ∨ c = '\x0c' ∨ c = '\r'

/-- The digit-run value consumed greedily by `strtol`: the longest prefix of
digits, folded in the given base.  (The `LONG_MAX` clamp of `strtol` is not
modelled: every call site in the source parses at most five decimal digits or
two hexadecimal digits, far below the clamp.) -/
def digitRunVal (digitVal : Char → Option Nat) (base : Nat) (cs : List Char) : Nat :=
  (cs.takeWhile (fun c => (digitVal c).isSome)).foldl
    (fun acc c => acc * base + ((digitVal c).getD 0)) 0

/-- `strtol(cs, NULL, base)`: skip leading whitespace, optional sign, then the
greedy digit run (0 if no digit follows).  A `"0x"` prefix is only meaningful
for base 16 with at least three characters, which never occurs in the source
(hex chunks are at most two characters long), so it is not modelled. -/
def strtolVal (digitVal : Char → Option Nat) (base : Nat) (cs : List Char) : Int :=
  match cs.dropWhile (fun c => isSpaceChar c) with
  | [] => 0
  | c :: rest =>
    if c = '-' then - (digitRunVal digitVal base rest : Int)
    else if c = '+' then (digitRunVal digitVal base rest : Int)
    else (digitRunVal digitVal base (c :: rest) : Int)

def strtolHex (cs : List Char) : Int := strtolVal hexDigitVal 16 cs

def strtolDec (cs : List Char) : Int := strtolVal decDigitVal 10 cs

/-- `static_cast<uint8_t>` of a C `long` (two's complement truncation). -/
def toUInt8Cast (i : Int) : Nat := (i % 256).toNat

/-- `(uint32_t)` cast of a C `long` (two's complement truncation). -/
def toUInt32Cast (i : Int) : Nat := (i % 4294967296).toNat

/-! ## `EcuLuaScript` string utilities (`ecu_lua_script.cpp`) -/

/-- The chunking `tmpStr.substr(i, 2)` for `i = 0, 2, ...` `< length`:
two-character chunks, with a final one-character chunk when the length is odd. -/
def chunks2 : List Char → List (List Char)
  | [] => []
  | [a] => [[a]]
  | a :: b :: rest => [a, b] :: chunks2 rest

/-- `EcuLuaScript::literalHexStrToBytes`: remove the space characters, then for
each two-character chunk (final chunk possibly shorter) push
`static_cast<uint8_t>(strtol(chunk, NULL, 16))`. -/
def literalHexStrToBytes (s : String) : List Nat :=
  (chunks2 (s.data.filter (fun c => c ≠ ' '))).map
    (fun chunk => toUInt8Cast (strtolHex chunk))

/-- The separator set of `EcuLuaScript::cleanupString`: `"_.,; #\t"`. -/
def isSepChar (c : Char) : Bool :=
  c = '_' ∨ c = '.' ∨ c = ',' ∨ c = ';' ∨ c = ' ' ∨ c = '#' ∨ c = '\t'

/-- `EcuLuaScript::cleanupString`: erase every separator character. -/
def cleanupString (s : String) : String :=
  ⟨s.data.filter (fun c => ¬ isSepChar c)⟩

/-- `EcuLuaScript::intToHexString`: render bytes as uppercase hex pairs joined
by single spaces (no leading or trailing space). -/
def intToHexString (bytes : List Nat) : String :=
  ⟨(bytes.map (fun b => [hexCharOf (b / 16), hexCharOf (b % 16)])).intersperse [' '] |>.flatten⟩

/-! ## The request byte tree (`request_byte_tree_node.h`)

`RequestByteTreeNode<T>` holds a byte-keyed map of children, an optional
placeholder child, an optional wildcard child, an optional bound response, and
the metadata `placeholderCount` / `requestLength`.  The `wildcard` flag is left
uninitialized by the C++ constructor and set (only) to `true` by
`appendWildcard`; the embedding gives it the intended value `false` on every
other node. -/

inductive RBTree (T : Type) : Type where
  | mk (subsequentByte : List (Nat × RBTree T))
       (subsequentPlaceholder : Option (RBTree T))
       (subsequentWildcard : Option (RBTree T))
       (luaResponse : Option T)
       (placeholderCount : Nat)
       (requestLength : Nat)
       (wildcard : Bool) : RBTree T

namespace RBTree

variable {T : Type}

def subsequentByteMap : RBTree T → List (Nat × RBTree T)
  | .mk sb _ _ _ _ _ _ => sb

def getSubsequentByte (t : RBTree T) (b : Nat) : Option (RBTree T) :=
  match t with
  | .mk sb _ _ _ _ _ _ => sb.lookup b

def getSubsequentPlaceholder : RBTree T → Option (RBTree T)
  | .mk _ sp _ _ _ _ _ => sp

def getSubsequentWildcard : RBTree T → Option (RBTree T)
  | .mk _ _ sw _ _ _ _ => sw

def getLuaResponse : RBTree T → Option T
  | .mk _ _ _ r _ _ _ => r

def getPlaceholderCount : RBTree T → Nat
  | .mk _ _ _ _ ph _ _ => ph

def getRequestLength : RBTree T → Nat
  | .mk _ _ _ _ _ len _ => len

def isWildcard : RBTree T → Bool
  | .mk _ _ _ _ _ _ w => w

/-- A fresh node, as built by `RequestByteTreeNode(placeholderCount, requestLength)`. -/
def fresh (ph len : Nat) : RBTree T := .mk [] none none none ph len false

/-- The root node `new RequestByteTreeNode<...>()` of `buildRequestByteTree`. -/
def root : RBTree T := fresh 0 0

end RBTree

/-- A tree node is identified by the path of edges from the root; a `std::map`
entry for byte `b`, the placeholder child, or the wildcard child.  Paths stand
in for the `shared_ptr` identities of the C++ nodes (the tree is acyclic with
unique ownership, so nodes and root paths are in bijection). -/
inductive Edge : Type where
  | byte (b : Nat) : Edge
  | ph : Edge
  | wc : Edge
deriving DecidableEq, Repr

abbrev Path := List Edge

namespace RBTree

variable {T : Type}

/-- The subtree reached by following a path. -/
def subtreeAt (t : RBTree T) : Path → Option (RBTree T)
  | [] => some t
  | .byte b :: rest => match t.getSubsequentByte b with
    | some c => c.subtreeAt rest
    | none => none
  | .ph :: rest => match t.getSubsequentPlaceholder with
    | some c => c.subtreeAt rest
    | none => none
  | .wc :: rest => match t.getSubsequentWildcard with
    | some c => c.subtreeAt rest
    | none => none

/-- The response bound at a path, if any. -/
def respAt (t : RBTree T) (p : Path) : Option T :=
  match t.subtreeAt p with
  | some n => n.getLuaResponse
  | none => none

/-- Replace the value bound to `k` in an association list (first occurrence),
appending when absent — the update behaviour of `std::map` on existing keys
together with `emplace` on missing ones. -/
def assocSet (l : List (Nat × RBTree T)) (k : Nat) (v : RBTree T) : List (Nat × RBTree T) :=
  match l with
  | [] => [(k, v)]
  | (k', v') :: rest => if k' = k then (k, v) :: rest else (k', v') :: assocSet rest k v

/-- Apply `f` to the node at path `p` (identity when the path is absent). -/
def updateAt (t : RBTree T) (p : Path) (f : RBTree T → RBTree T) : RBTree T :=
  match p, t with
  | [], _ => f t
  | .byte b :: rest, .mk sb sp sw r ph len w =>
    match sb.lookup b with
    | some c => .mk (assocSet sb b (c.updateAt rest f)) sp sw r ph len w
    | none => .mk sb sp sw r ph len w
  | .ph :: rest, .mk sb sp sw r ph len w =>
    match sp with
    | some c => .mk sb (some (c.updateAt rest f)) sw r ph len w
    | none => .mk sb sp sw r ph len w
  | .wc :: rest, .mk sb sp sw r ph len w =>
    match sw with
    | some c => .mk sb sp (some (c.updateAt rest f)) r ph len w
    | none => .mk sb sp sw r ph len w

/-- `setLuaResponse` at the node reached by `p` (`luaResponse.emplace`). -/
def setLuaResponseAt (t : RBTree T) (p : Path) (resp : T) : RBTree T :=
  t.updateAt p (fun n => match n with
    | .mk sb sp sw _ ph len w => .mk sb sp sw (some resp) ph len w)

end RBTree

/-! ## Pattern insertion (`EcuLuaScript::addRequestToTree`, `buildRequestByteTree`) -/

/-- The two-character chunks visited by the `for (i; i + 1 < length; i += 2)`
loop of `addRequestToTree`: consecutive pairs, odd trailing character dropped. -/
def pairs2 : List Char → List (Char × Char)
  | a :: b :: rest => (a, b) :: pairs2 rest
  | _ => []

/-- A parsed byte element of a pattern: a concrete byte or the placeholder. -/
inductive Elem : Type where
  | byte (b : Nat) : Elem
  | ph : Elem
deriving DecidableEq, Repr

/-- Decode one two-character chunk the way `addRequestToTree` does:
`strncasecmp(chunk, "XX", 2) == 0` yields the placeholder, otherwise
`literalHexStrToBytes(chunk).at(0)` yields a byte — `none` models the
`out_of_range` throw when that vector is empty (both characters spaces). -/
def elemOfChunk (a b : Char) : Option Elem :=
  if (a = 'X' ∨ a = 'x') ∧ (b = 'X' ∨ b = 'x') then some .ph
  else match (literalHexStrToBytes ⟨[a, b]⟩).head? with
    | some v => some (.byte v)
    | none => none

namespace RBTree

variable {T : Type}

/-- The field assignment `nextElement->placeholderCount = this->placeholderCount + 1`
performed by `appendPlaceholder` on an existing placeholder child. -/
def withPlaceholderCount : RBTree T → Nat → RBTree T
  | .mk sb sp sw r _ len w, ph => .mk sb sp sw r ph len w

/-- The walk of `addRequestToTree` over the two-character chunks, appending
`appendByte` / `appendPlaceholder` children.  Returns the updated tree together
with the path of the reached node, or an error when a chunk decodes to nothing
(the `out_of_range` catch); nodes appended before the failing chunk remain, as
the C++ tree is mutated in place. -/
def insertPairs (t : RBTree T) : List (Char × Char) → RBTree T × Except Unit Path
  | [] => (t, .ok [])
  | (a, b) :: rest =>
    match elemOfChunk a b, t with
    | none, _ => (t, .error ())
    | some .ph, .mk sb sp sw r ph len w =>
      let child := match sp with
        | some c => c.withPlaceholderCount (ph + 1)
        | none => fresh (ph + 1) (len + 1)
      let step := insertPairs child rest
      (.mk sb (some step.1) sw r ph len w,
       match step.2 with
       | .ok p => .ok (.ph :: p)
       | .error e => .error e)
    | some (.byte bv), .mk sb sp sw r ph len w =>
      let child := match sb.lookup bv with
        | some c => c
        | none => fresh ph (len + 1)
      let step := insertPairs child rest
      (.mk (assocSet sb bv step.1) sp sw r ph len w,
       match step.2 with
       | .ok p => .ok (.byte bv :: p)
       | .error e => .error e)

/-- `nextElement->wildcard = true` of `appendWildcard`. -/
def setWildcardFlag : RBTree T → RBTree T
  | .mk sb sp sw r ph len _ => .mk sb sp sw r ph len true

/-- `appendWildcard` on the node at the end of a path: creates the wildcard
child `(placeholderCount, requestLength + 1)` and marks it as wildcard.  Only
called when no wildcard child exists (`appendWildcard` throws otherwise). -/
def addWildcardAt (t : RBTree T) (p : Path) : RBTree T :=
  t.updateAt p (fun n => match n with
    | .mk sb sp _ r ph len w => .mk sb sp (some (fresh ph (len + 1) |>.setWildcardFlag)) r ph len w)

end RBTree

/-- The two failure modes of `addRequestToTree` (both raised as bare
`std::exception`; the accompanying `cerr` messages distinguish them). -/
inductive TreeErr : Type where
  | invalidPattern : TreeErr
  | duplicateWildcard : TreeErr
deriving DecidableEq, Repr

namespace RBTree

variable {T : Type}

/-- `EcuLuaScript::addRequestToTree`: walk the two-character chunks, then
handle an odd trailing character — a `"*"` appends the wildcard child (failing
with *DuplicateWildcard* when one exists), anything else fails with
*InvalidPattern*.  The returned tree keeps the nodes appended before a failure. -/
def addRequestToTree (t : RBTree T) (requestString : String) : RBTree T × Except TreeErr Path :=
  let cs := requestString.data
  let ins := insertPairs t (pairs2 cs)
  match ins.2 with
  | .error _ => (ins.1, .error .invalidPattern)
  | .ok p =>
    if cs.length % 2 ≠ 0 then
      if cs.getLast? = some '*' then
        match ins.1.subtreeAt p with
        | some n =>
          if n.getSubsequentWildcard.isSome then (ins.1, .error .duplicateWildcard)
          else (ins.1.addWildcardAt p, .ok (p ++ [.wc]))
        | none => (ins.1, .error .duplicateWildcard)
      else (ins.1, .error .invalidPattern)
    else (ins.1, .ok p)

/-- `EcuLuaScript::buildRequestByteTree`: clean each key, insert it, bind the
response at the leaf on success, and on any exception log and skip the key,
continuing with the rest. -/
def buildRequestByteTree (t : RBTree T) (entries : List (String × T)) : RBTree T :=
  entries.foldl (fun acc entry =>
    let ins := addRequestToTree acc (cleanupString entry.1)
    match ins.2 with
    | .ok p => ins.1.setLuaResponseAt p entry.2
    | .error _ => ins.1) t

/-! ## Matching (`EcuLuaScript::getValueFromTree` and helpers)

The candidate set `set<shared_ptr<RequestByteTreeNode<T>>>` is modelled as a
list of paths; `std::set` iterates in pointer-address order, which is not
determined by the tree, so statements about the match quantify over
permutations of the candidate list. -/

/-- One candidate's contribution to the next candidate set: a wildcard node is
absorbing, any other node contributes its byte / placeholder / wildcard
children present for the next request byte (`findAndAddMatchesForNextByte`). -/
def stepOne (t : RBTree T) (p : Path) (b : Nat) : List Path :=
  match t.subtreeAt p with
  | none => []
  | some node =>
    if node.isWildcard then [p]
    else
      (match node.getSubsequentByte b with
        | some _ => [p ++ [Edge.byte b]] | none => []) ++
      (match node.getSubsequentPlaceholder with
        | some _ => [p ++ [Edge.ph]] | none => []) ++
      (match node.getSubsequentWildcard with
        | some _ => [p ++ [Edge.wc]] | none => [])

/-- The next candidate set after consuming one request byte (set union). -/
def stepAll (t : RBTree T) (cands : List Path) (b : Nat) : List Path :=
  ((cands.map (fun p => stepOne t p b)).flatten).dedup

/-- The candidate set after consuming the whole request, starting from `{root}`. -/
def finalCandidates (t : RBTree T) (payload : List Nat) : List Path :=
  payload.foldl (fun cands b => stepAll t cands b) [[]]

/-- `getThisOrNextWildcardWithResponse`: a final candidate without a response is
replaced by its wildcard child when it has one (a wildcard also matches the
empty suffix). -/
def resolveCand (t : RBTree T) (p : Path) : Path :=
  match t.subtreeAt p with
  | some n =>
    if n.getLuaResponse.isNone then
      (if n.getSubsequentWildcard.isSome then p ++ [Edge.wc] else p)
    else p
  | none => p

/-- The replacement condition of `findBestMatchingRequest`'s `if`/`else if`
chain: does candidate `cur` replace the current `bestMatchingRequest`? -/
def prefersOver (t : RBTree T) (cur best : Path) : Bool :=
  match t.subtreeAt best, t.subtreeAt cur with
  | some bn, some cn =>
    if bn.isWildcard ∧ ¬ cn.isWildcard then true
    else if cn.isWildcard ∧ cn.getRequestLength > bn.getRequestLength then true
    else if cn.getPlaceholderCount < bn.getPlaceholderCount then true
    else false
  | _, _ => false

/-- `EcuLuaScript::findBestMatchingRequest` over an explicit iteration order of
the candidate set. -/
def findBestMatchingRequest (t : RBTree T) (cands : List Path) : Option Path :=
  cands.foldl (fun best praw =>
    let p := resolveCand t praw
    if (t.respAt p).isNone then best
    else match best with
      | none => some p
      | some b => if prefersOver t p b then some p else some b) none

/-- `getValueFromTree` for one concrete iteration order of the candidate set. -/
def getValueFromTreeWith (t : RBTree T) (cands : List Path) : Option T :=
  match findBestMatchingRequest t cands with
  | some p => t.respAt p
  | none => none

/-- All possible outcomes of `EcuLuaScript::getValueFromTree`: the candidate
set is iterated in `std::set`'s pointer order, so every enumeration order of
the final candidate set is a possible execution. -/
def getValueFromTreeRel (t : RBTree T) (payload : List Nat) (res : Option T) : Prop :=
  ∃ cands : List Path, cands.Perm (finalCandidates t payload) ∧
    getValueFromTreeWith t cands = res

end RBTree

/-! ## Concrete trees exhibiting the order-dependent tie-break

`findBestMatchingRequest`'s documentation promises: prefer non-wildcard
requests, then fewer placeholders, and use pattern length only among
wildcard-only candidate sets.  The implemented `if`/`else if` chain checks the
length rule and the placeholder rule without first checking that both
candidates have the same wildcard status, so for some iteration orders of the
candidate `std::set` (pointer order, not determined by the tree) a wildcard
pattern beats a non-wildcard one. -/

open RBTree

/-- A tree holding the literal pattern `22 F1 90` and the weaker-scoring
wildcard pattern `22 XX 90 *`, built through the source's load pipeline. -/
def treeLiteralVsWc : RBTree String :=
  buildRequestByteTree root [("22 F1 90", "L"), ("22 XX 90 *", "W")]

/-- A tree holding the placeholder pattern `22 XX 90` and the wildcard pattern
`22 F1 *`. -/
def treePlaceholderVsWc : RBTree String :=
  buildRequestByteTree root [("22 XX 90", "A"), ("22 F1 *", "C")]

/-- A tree holding the two-placeholder pattern `10 XX XX` and the wildcard
pattern `10 22 *`. -/
def treeFewestPh : RBTree String :=
  buildRequestByteTree root [("10 XX XX", "A"), ("10 22 *", "C")]

/-- C1: for the request `[0x22, 0xF1, 0x90]` and a tree containing that exact
literal pattern (bound to `"L"`), the match operation can nevertheless return
the response `"W"` of the weaker-scoring wildcard pattern `22 XX 90 *`: when
the candidate set iterates the literal leaf first, the substituted wildcard
node (`requestLength` 4 > 3) takes the `else if` length branch and replaces it.
The opposite iteration order returns the literal's `"L"`, so the result is
order-dependent.  This contradicts the tie-break documented at
`findBestMatchingRequest` and the claim that the literal pattern's response is
always returned. -/
theorem C1_literal_pattern_can_lose :
    respAt treeLiteralVsWc [Edge.byte 0x22, Edge.byte 0xF1, Edge.byte 0x90] = some "L" ∧
    getValueFromTreeRel treeLiteralVsWc [0x22, 0xF1, 0x90] (some "W") ∧
    getValueFromTreeRel treeLiteralVsWc [0x22, 0xF1, 0x90] (some "L") ∧
    "W" ≠ "L" := by
  refine ⟨rfl, ⟨[[Edge.byte 0x22, Edge.byte 0xF1, Edge.byte 0x90],
    [Edge.byte 0x22, Edge.ph, Edge.byte 0x90]], by decide, rfl⟩,
    ⟨[[Edge.byte 0x22, Edge.ph, Edge.byte 0x90],
    [Edge.byte 0x22, Edge.byte 0xF1, Edge.byte 0x90]], by decide, rfl⟩, by decide⟩

/-- C2: for the request `[0x22, 0xF1, 0x90]`, matched by the non-wildcard
pattern `22 XX 90` (response `"A"`) and the trailing-wildcard pattern `22 F1 *`
(response `"C"`), the match operation can return the wildcard's response `"C"`:
when the non-wildcard candidate is iterated first, the wildcard candidate's
lower placeholder count (0 < 1) takes the final `else if` branch; the opposite
order returns `"A"`.  This contradicts the documented rule that non-wildcard
patterns always beat wildcard patterns, for some candidate enumeration
orders. -/
theorem C2_wildcard_can_beat_nonwildcard :
    respAt treePlaceholderVsWc [Edge.byte 0x22, Edge.ph, Edge.byte 0x90] = some "A" ∧
    getValueFromTreeRel treePlaceholderVsWc [0x22, 0xF1, 0x90] (some "C") ∧
    getValueFromTreeRel treePlaceholderVsWc [0x22, 0xF1, 0x90] (some "A") ∧
    "C" ≠ "A" := by
  refine ⟨rfl, ⟨[[Edge.byte 0x22, Edge.ph, Edge.byte 0x90],
    [Edge.byte 0x22, Edge.byte 0xF1, Edge.wc]], by decide, rfl⟩,
    ⟨[[Edge.byte 0x22, Edge.byte 0xF1, Edge.wc],
    [Edge.byte 0x22, Edge.ph, Edge.byte 0x90]], by decide, rfl⟩, by decide⟩

/-- C3: for the request `[0x10, 0x22, 0x33]`, whose only matching non-wildcard
pattern is `10 XX XX` (response `"A"`, the fewest-placeholder non-wildcard
match), the match operation can return `"C"`, the response of the wildcard
pattern `10 22 *`, when the non-wildcard candidate is iterated first — the
placeholder comparison (0 < 2) is applied across different wildcard statuses;
the opposite order returns `"A"`.  So the response of the fewest-placeholder
non-wildcard match is not always returned. -/
theorem C3_fewest_placeholders_can_lose :
    respAt treeFewestPh [Edge.byte 0x10, Edge.ph, Edge.ph] = some "A" ∧
    getValueFromTreeRel treeFewestPh [0x10, 0x22, 0x33] (some "C") ∧
    getValueFromTreeRel treeFewestPh [0x10, 0x22, 0x33] (some "A") ∧
    "C" ≠ "A" := by
  refine ⟨rfl, ⟨[[Edge.byte 0x10, Edge.ph, Edge.ph],
    [Edge.byte 0x10, Edge.byte 0x22, Edge.wc]], by decide, rfl⟩,
    ⟨[[Edge.byte 0x10, Edge.byte 0x22, Edge.wc],
    [Edge.byte 0x10, Edge.ph, Edge.ph]], by decide, rfl⟩, by decide⟩

/-! ## Which keys actually fail pattern insertion (C5) -/

lemma pairs2_fst_mem : ∀ (l : List Char) (pr : Char × Char), pr ∈ pairs2 l → pr.1 ∈ l
  | [], pr, h => by simp [pairs2] at h
  | [_], pr, h => by simp [pairs2] at h
  | a :: b :: rest, pr, h => by
      simp only [pairs2, List.mem_cons] at h
      rcases h with h | h
      · simp [h]
      · exact List.mem_cons_of_mem _ (List.mem_cons_of_mem _ (pairs2_fst_mem rest pr h))

/-- A chunk whose first character is not a space always decodes: `strtol` may
not find a hex digit, but it still returns a value (0), so
`literalHexStrToBytes` pushes a byte and `.at(0)` cannot throw. -/
lemma elemOfChunk_isSome (a b : Char) (ha : a ≠ ' ') : (elemOfChunk a b).isSome := by
  unfold elemOfChunk
  by_cases hx : (a = 'X' ∨ a = 'x') ∧ (b = 'X' ∨ b = 'x')
  · simp [hx]
  · by_cases hb : b = ' ' <;>
      simp [hx, literalHexStrToBytes, hb, ha, chunks2]

lemma insertPairs_ok {T : Type} : ∀ (ps : List (Char × Char)) (t : RBTree T),
    (∀ pr ∈ ps, (elemOfChunk pr.1 pr.2).isSome) →
    ∃ q, (RBTree.insertPairs t ps).2 = Except.ok q
  | [], _, _ => ⟨[], rfl⟩
  | (a, b) :: ps, t, h => by
      have ha : (elemOfChunk a b).isSome := h (a, b) (List.mem_cons_self _ _)
      have hrest : ∀ pr ∈ ps, (elemOfChunk pr.1 pr.2).isSome :=
        fun pr hpr => h pr (List.mem_cons_of_mem _ hpr)
      obtain ⟨e, he⟩ := Option.isSome_iff_exists.mp ha
      cases t with
      | mk sb sp sw r ph len w =>
        cases e with
        | ph =>
          rcases hsp : sp with _ | c
          · obtain ⟨q, hq⟩ := insertPairs_ok ps (RBTree.fresh (ph + 1) (len + 1)) hrest
            exact ⟨.ph :: q, by simp only [RBTree.insertPairs, he]; rw [hq]⟩
          · obtain ⟨q, hq⟩ := insertPairs_ok ps (c.withPlaceholderCount (ph + 1)) hrest
            exact ⟨.ph :: q, by simp only [RBTree.insertPairs, he]; rw [hq]⟩
        | byte bv =>
          rcases hsb : sb.lookup bv with _ | c
          · obtain ⟨q, hq⟩ := insertPairs_ok ps (RBTree.fresh ph (len + 1)) hrest
            exact ⟨.byte bv :: q, by simp only [RBTree.insertPairs, he, hsb]; rw [hq]⟩
          · obtain ⟨q, hq⟩ := insertPairs_ok ps c hrest
            exact ⟨.byte bv :: q, by simp only [RBTree.insertPairs, he, hsb]; rw [hq]⟩

/-- Characters surviving `cleanupString` are never spaces. -/
lemma cleanupString_no_space (s : String) : ∀ c ∈ (cleanupString s).data, c ≠ ' ' := by
  intro c hc
  simp only [cleanupString, List.mem_filter] at hc
  intro hsp
  subst hsp
  simp [isSepChar] at hc

/-- C5 (counterexample): the key `"GG"` contains a byte element that is neither
two hexadecimal digits nor the placeholder nor a wildcard, yet insertion does
not fail: `strtol("GG", NULL, 16)` parses no digits and returns 0, so the key
is inserted as the concrete byte `0x00` and its response is bound at that leaf,
contradicting the claim that such keys fail with *InvalidPattern* and bind no
leaf. -/
theorem C5_invalid_hex_key_is_accepted :
    (RBTree.addRequestToTree (RBTree.root : RBTree String) "GG").2 = Except.ok [Edge.byte 0] ∧
    RBTree.respAt (RBTree.buildRequestByteTree (RBTree.root : RBTree String) [("GG", "R")])
      [Edge.byte 0] = some "R" := by
  exact ⟨rfl, rfl⟩

/-- C5 (amended): insertion fails with *InvalidPattern* exactly for the keys
whose cleaned form has an odd number of characters and does not end in `'*'`
(byte elements that are not valid hex are accepted leniently through `strtol`);
such a key binds no response, is skipped, and the loading of the remaining keys
of the tree continues from the partially extended tree — never fatally. -/
theorem C5_odd_key_invalid_and_skipped {T : Type} (t : RBTree T) (s : String)
    (hodd : (cleanupString s).data.length % 2 = 1)
    (hstar : (cleanupString s).data.getLast? ≠ some '*') :
    (RBTree.addRequestToTree t (cleanupString s)).2 = Except.error TreeErr.invalidPattern ∧
    ∀ (resp : T) (rest : List (String × T)),
      RBTree.buildRequestByteTree t ((s, resp) :: rest) =
        RBTree.buildRequestByteTree (RBTree.addRequestToTree t (cleanupString s)).1 rest := by
  obtain ⟨q, hq⟩ := insertPairs_ok (pairs2 (cleanupString s).data) t
    (fun pr hpr => elemOfChunk_isSome pr.1 pr.2
      (cleanupString_no_space s pr.1 (pairs2_fst_mem _ pr hpr)))
  have herr : (RBTree.addRequestToTree t (cleanupString s)).2 =
      Except.error TreeErr.invalidPattern := by
    have hne : (cleanupString s).data.length % 2 ≠ 0 := by omega
    simp only [RBTree.addRequestToTree]
    rw [hq]
    dsimp only
    rw [if_pos hne, if_neg hstar]
  refine ⟨herr, fun resp rest => ?_⟩
  simp only [RBTree.buildRequestByteTree, List.foldl_cons]
  rw [show (RBTree.addRequestToTree t (cleanupString (s, resp).1)).2 =
      Except.error TreeErr.invalidPattern from herr]

/-- Witness for `C5_odd_key_invalid_and_skipped` at the key `"G"`. -/
theorem C5_odd_key_invalid_and_skipped_witness :
    (RBTree.addRequestToTree (RBTree.root : RBTree String) (cleanupString "G")).2 =
      Except.error TreeErr.invalidPattern ∧
    RBTree.buildRequestByteTree (RBTree.root : RBTree String) [("G", "R")] =
      RBTree.buildRequestByteTree
        (RBTree.addRequestToTree (RBTree.root : RBTree String) (cleanupString "G")).1 [] := by
  have h := C5_odd_key_invalid_and_skipped (RBTree.root : RBTree String) "G"
    (by decide) (by decide)
  exact ⟨h.1, h.2 "R" []⟩

/-! ## Re-walking an inserted pattern (towards C6)

Inserting a pattern whose nodes all exist already reuses every node
(`map::emplace` does not overwrite, `appendPlaceholder` reuses the child and
re-assigns the placeholder count it already has), so a second insertion of the
same cleaned key walks to the same leaf without modifying the tree. -/

namespace RBTree

variable {T : Type}

lemma lookup_assocSet (l : List (Nat × RBTree T)) (k : Nat) (v : RBTree T) :
    List.lookup k (assocSet l k v) = some v := by
  induction l with
  | nil => simp [assocSet, List.lookup]
  | cons hd tl ih =>
    obtain ⟨k', v'⟩ := hd
    by_cases h : k' = k
    · subst h
      simp [assocSet, List.lookup]
    · have hbeq : (k == k') = false := beq_eq_false_iff_ne.mpr (Ne.symm h)
      simp [assocSet, h, List.lookup, hbeq, ih]

lemma assocSet_assocSet (l : List (Nat × RBTree T)) (k : Nat) (v v₂ : RBTree T) :
    assocSet (assocSet l k v) k v₂ = assocSet l k v₂ := by
  induction l with
  | nil => simp [assocSet]
  | cons hd tl ih =>
    obtain ⟨k', v'⟩ := hd
    by_cases h : k' = k
    · subst h
      simp [assocSet]
    · simp [assocSet, h, ih]

lemma insertPairs_fst_count (ps : List (Char × Char)) (t : RBTree T) :
    ((insertPairs t ps).1).getPlaceholderCount = t.getPlaceholderCount := by
  cases ps with
  | nil => rfl
  | cons pr rest =>
    obtain ⟨a, b⟩ := pr
    cases t with
    | mk sb sp sw r ph len w =>
      rcases he : elemOfChunk a b with _ | e
      · simp [insertPairs, he]
      · cases e <;> simp [insertPairs, he, getPlaceholderCount]

lemma updateAt_count (g : RBTree T → RBTree T)
    (hg : ∀ n, (g n).getPlaceholderCount = n.getPlaceholderCount)
    (p : Path) (t : RBTree T) :
    (t.updateAt p g).getPlaceholderCount = t.getPlaceholderCount := by
  cases p with
  | nil => exact hg t
  | cons e rest =>
    cases t with
    | mk sb sp sw r ph len w =>
      cases e <;> simp only [updateAt] <;> split <;> rfl

lemma withPlaceholderCount_self (n : RBTree T) (k : Nat)
    (h : n.getPlaceholderCount = k) : n.withPlaceholderCount k = n := by
  cases n with
  | mk sb sp sw r ph len w =>
    simp only [getPlaceholderCount] at h
    simp [withPlaceholderCount, h]

lemma subtreeAt_updateAt (g : RBTree T → RBTree T) :
    ∀ (p : Path) (t : RBTree T), (t.updateAt p g).subtreeAt p = (t.subtreeAt p).map g
  | [], t => rfl
  | .byte b :: rest, .mk sb sp sw r ph len w => by
      rcases hl : List.lookup b sb with _ | c
      · simp [updateAt, subtreeAt, getSubsequentByte, hl]
      · simp [updateAt, subtreeAt, getSubsequentByte, hl, lookup_assocSet,
          subtreeAt_updateAt g rest c]
  | .ph :: rest, .mk sb sp sw r ph len w => by
      rcases hl : sp with _ | c
      · simp [updateAt, subtreeAt, getSubsequentPlaceholder, hl]
      · simp [updateAt, subtreeAt, getSubsequentPlaceholder, hl,
          subtreeAt_updateAt g rest c]
  | .wc :: rest, .mk sb sp sw r ph len w => by
      rcases hl : sw with _ | c
      · simp [updateAt, subtreeAt, getSubsequentWildcard, hl]
      · simp [updateAt, subtreeAt, getSubsequentWildcard, hl,
          subtreeAt_updateAt g rest c]

lemma updateAt_append (g : RBTree T → RBTree T) (rho : Path) :
    ∀ (p : Path) (t : RBTree T),
      t.updateAt (p ++ rho) g = t.updateAt p (fun n => n.updateAt rho g)
  | [], t => rfl
  | .byte b :: rest, .mk sb sp sw r ph len w => by
      rcases hl : List.lookup b sb with _ | c
      · simp [updateAt, hl]
      · simp [updateAt, hl, updateAt_append g rho rest c]
  | .ph :: rest, .mk sb sp sw r ph len w => by
      rcases hl : sp with _ | c
      · simp [updateAt, hl]
      · simp [updateAt, hl, updateAt_append g rho rest c]
  | .wc :: rest, .mk sb sp sw r ph len w => by
      rcases hl : sw with _ | c
      · simp [updateAt, hl]
      · simp [updateAt, hl, updateAt_append g rho rest c]

lemma updateAt_updateAt (g₁ g₂ : RBTree T → RBTree T) :
    ∀ (p : Path) (t : RBTree T),
      (t.updateAt p g₁).updateAt p g₂ = t.updateAt p (fun n => g₂ (g₁ n))
  | [], t => rfl
  | .byte b :: rest, .mk sb sp sw r ph len w => by
      rcases hl : List.lookup b sb with _ | c
      · simp [updateAt, hl]
      · simp [updateAt, hl, lookup_assocSet, assocSet_assocSet,
          updateAt_updateAt g₁ g₂ rest c]
  | .ph :: rest, .mk sb sp sw r ph len w => by
      rcases hl : sp with _ | c
      · simp [updateAt, hl]
      · simp [updateAt, hl, updateAt_updateAt g₁ g₂ rest c]
  | .wc :: rest, .mk sb sp sw r ph len w => by
      rcases hl : sw with _ | c
      · simp [updateAt, hl]
      · simp [updateAt, hl, updateAt_updateAt g₁ g₂ rest c]

/-- Re-inserting the chunk sequence of an already inserted pattern changes
nothing — even after the node at the reached leaf was modified by a
placeholder-count-preserving update: every node is found and reused, and
`appendPlaceholder`'s count re-assignment writes the value already stored. -/
lemma insertPairs_stable (g : RBTree T → RBTree T)
    (hg : ∀ n, (g n).getPlaceholderCount = n.getPlaceholderCount) :
    ∀ (ps : List (Char × Char)) (t t₁ : RBTree T) (q : Path),
      insertPairs t ps = (t₁, Except.ok q) →
      insertPairs (t₁.updateAt q g) ps = (t₁.updateAt q g, Except.ok q)
  | [], t, t₁, q, h => by
      simp only [insertPairs, Prod.mk.injEq] at h
      obtain ⟨h1, h2⟩ := h
      obtain rfl := Except.ok.inj h2
      subst h1
      rfl
  | (a, b) :: ps, t, t₁, q, h => by
      cases t with
      | mk sb sp sw r ph len w =>
        rcases he : elemOfChunk a b with _ | e
        · simp only [insertPairs, he] at h
          simp at h
        · cases e with
          | ph =>
            rcases hsp : sp with _ | c0
            · subst hsp
              simp only [insertPairs, he] at h
              rcases hstep : insertPairs (fresh (ph + 1) (len + 1) : RBTree T) ps with ⟨c₁, res⟩
              rw [hstep] at h
              cases res with
              | error e0 => simp at h
              | ok q' =>
                simp only [Prod.mk.injEq] at h
                obtain ⟨ht, hq⟩ := h
                obtain rfl := Except.ok.inj hq
                subst ht
                have hcount : c₁.getPlaceholderCount = ph + 1 := by
                  have hic := insertPairs_fst_count ps (fresh (ph + 1) (len + 1) : RBTree T)
                  rw [hstep] at hic
                  simpa [fresh, getPlaceholderCount] using hic
                have hc2count : (c₁.updateAt q' g).getPlaceholderCount = ph + 1 := by
                  rw [updateAt_count g hg, hcount]
                have hih := insertPairs_stable g hg ps _ c₁ q' hstep
                simp only [updateAt]
                simp only [insertPairs, he]
                rw [withPlaceholderCount_self _ _ hc2count, hih]
            · subst hsp
              simp only [insertPairs, he] at h
              rcases hstep : insertPairs (c0.withPlaceholderCount (ph + 1)) ps with ⟨c₁, res⟩
              rw [hstep] at h
              cases res with
              | error e0 => simp at h
              | ok q' =>
                simp only [Prod.mk.injEq] at h
                obtain ⟨ht, hq⟩ := h
                obtain rfl := Except.ok.inj hq
                subst ht
                have hcount : c₁.getPlaceholderCount = ph + 1 := by
                  have hic := insertPairs_fst_count ps (c0.withPlaceholderCount (ph + 1))
                  rw [hstep] at hic
                  cases c0 with
                  | mk sb2 sp2 sw2 r2 ph2 len2 w2 =>
                    simpa [withPlaceholderCount, getPlaceholderCount] using hic
                have hc2count : (c₁.updateAt q' g).getPlaceholderCount = ph + 1 := by
                  rw [updateAt_count g hg, hcount]
                have hih := insertPairs_stable g hg ps _ c₁ q' hstep
                simp only [updateAt]
                simp only [insertPairs, he]
                rw [withPlaceholderCount_self _ _ hc2count, hih]
          | byte bv =>
            rcases hsb : List.lookup bv sb with _ | c0 <;>
              simp only [insertPairs, he, hsb] at h
            · rcases hstep : insertPairs (fresh ph (len + 1) : RBTree T) ps with ⟨c₁, res⟩
              rw [hstep] at h
              cases res with
              | error e0 => simp at h
              | ok q' =>
                simp only [Prod.mk.injEq] at h
                obtain ⟨ht, hq⟩ := h
                obtain rfl := Except.ok.inj hq
                subst ht
                have hih := insertPairs_stable g hg ps _ c₁ q' hstep
                simp only [updateAt, lookup_assocSet, assocSet_assocSet]
                simp only [insertPairs, he, lookup_assocSet]
                rw [hih]
                simp [assocSet_assocSet]
            · rcases hstep : insertPairs c0 ps with ⟨c₁, res⟩
              rw [hstep] at h
              cases res with
              | error e0 => simp at h
              | ok q' =>
                simp only [Prod.mk.injEq] at h
                obtain ⟨ht, hq⟩ := h
                obtain rfl := Except.ok.inj hq
                subst ht
                have hih := insertPairs_stable g hg ps _ c₁ q' hstep
                simp only [updateAt, lookup_assocSet, assocSet_assocSet]
                simp only [insertPairs, he, lookup_assocSet]
                rw [hih]
                simp [assocSet_assocSet]

/-- Unpack a successful insertion of a wildcard-terminated pattern: the chunk
walk succeeded at some node `n` (path `q`) that had no wildcard child yet; the
result binds the new wildcard leaf `q ++ [wc]`. -/
lemma addRequestToTree_star_ok (t : RBTree T) (s : String)
    (hodd : s.data.length % 2 = 1) (hstar : s.data.getLast? = some '*')
    (p : Path) (hok : (addRequestToTree t s).2 = Except.ok p) :
    ∃ q n c, insertPairs t (pairs2 s.data) = (c, Except.ok q) ∧
      c.subtreeAt q = some n ∧ n.getSubsequentWildcard = none ∧
      p = q ++ [Edge.wc] ∧
      (addRequestToTree t s).1 = c.addWildcardAt q := by
  have hne : s.data.length % 2 ≠ 0 := by omega
  have hlen : s.length % 2 = 1 := hodd
  rcases hins : insertPairs t (pairs2 s.data) with ⟨c, res⟩
  cases res with
  | error e0 => simp [addRequestToTree, hins] at hok
  | ok q =>
    rcases hsub : c.subtreeAt q with _ | n
    · simp [addRequestToTree, hins, hne, hlen, hstar, hsub] at hok
    · rcases hwc : n.getSubsequentWildcard with _ | wnode
      · refine ⟨q, n, c, rfl, hsub, hwc, ?_, ?_⟩
        · simp [addRequestToTree, hins, hne, hlen, hstar, hsub, hwc] at hok
          exact hok.symm
        · simp [addRequestToTree, hins, hne, hlen, hstar, hsub, hwc]
      · simp [addRequestToTree, hins, hne, hlen, hstar, hsub, hwc] at hok

/-- Inserting a wildcard-terminated pattern again — after the node at its leaf
path was modified by any placeholder-count-preserving update that gave it a
wildcard child — walks to the same node and fails with *DuplicateWildcard*,
leaving the tree unchanged. -/
lemma addRequestToTree_again_dup (t c : RBTree T) (q : Path) (n : RBTree T)
    (s : String) (hodd : s.data.length % 2 = 1) (hstar : s.data.getLast? = some '*')
    (hins : insertPairs t (pairs2 s.data) = (c, Except.ok q))
    (G : RBTree T → RBTree T)
    (hgc : ∀ m, (G m).getPlaceholderCount = m.getPlaceholderCount)
    (hsub : c.subtreeAt q = some n)
    (hwc : ((G n).getSubsequentWildcard).isSome = true) :
    addRequestToTree (c.updateAt q G) s =
      (c.updateAt q G, Except.error TreeErr.duplicateWildcard) := by
  have hstable := insertPairs_stable G hgc (pairs2 s.data) t c q hins
  have hsub2 : (c.updateAt q G).subtreeAt q = some (G n) := by
    rw [subtreeAt_updateAt, hsub]
    rfl
  have hne : s.data.length % 2 ≠ 0 := by omega
  simp only [addRequestToTree]
  rw [hstable]
  dsimp only
  rw [if_pos hne, if_pos hstar, hsub2]
  dsimp only
  rw [hwc]
  simp

end RBTree

/-- C6 (counterexample): re-inserting the wildcard key `"22 *"` does fail with
*DuplicateWildcard*, but the error is not fatal for the ECU's tree: the
`catch (exception&)` of `buildRequestByteTree` treats it exactly like
*InvalidPattern* — the key is logged and skipped, construction completes
normally, the later key `"11"` is still bound, and the first `"22 *"` binding
keeps answering requests. -/
theorem C6_duplicate_wildcard_not_fatal :
    (RBTree.addRequestToTree
        (RBTree.buildRequestByteTree (RBTree.root : RBTree String) [("22 *", "A")])
        (cleanupString "22 *")).2 = Except.error TreeErr.duplicateWildcard ∧
    RBTree.respAt
      (RBTree.buildRequestByteTree (RBTree.root : RBTree String)
        [("22 *", "A"), ("22 *", "B"), ("11", "C")]) [Edge.byte 0x11] = some "C" ∧
    RBTree.getValueFromTreeWith
      (RBTree.buildRequestByteTree (RBTree.root : RBTree String)
        [("22 *", "A"), ("22 *", "B"), ("11", "C")])
      (RBTree.finalCandidates
        (RBTree.buildRequestByteTree (RBTree.root : RBTree String)
          [("22 *", "A"), ("22 *", "B"), ("11", "C")]) [0x22, 0x05]) = some "A" := by
  exact ⟨rfl, rfl, rfl⟩

/-- C6 (amended): for every pair of keys normalizing to the same
wildcard-terminated pattern string, inserting the second after the first was
bound fails with *DuplicateWildcard* and leaves the tree unchanged; at load
time the error is caught like *InvalidPattern* — the key is skipped and the
tree construction completes with the remaining keys (it is not fatal). -/
theorem C6_second_wildcard_key_rejected {T : Type} (t : RBTree T)
    (s₁ s₂ : String) (r₁ : T) (p : Path)
    (heq : cleanupString s₂ = cleanupString s₁)
    (hodd : (cleanupString s₁).data.length % 2 = 1)
    (hstar : (cleanupString s₁).data.getLast? = some '*')
    (hok : (RBTree.addRequestToTree t (cleanupString s₁)).2 = Except.ok p) :
    (RBTree.addRequestToTree
        ((RBTree.addRequestToTree t (cleanupString s₁)).1.setLuaResponseAt p r₁)
        (cleanupString s₂)).2 = Except.error TreeErr.duplicateWildcard ∧
    (RBTree.addRequestToTree
        ((RBTree.addRequestToTree t (cleanupString s₁)).1.setLuaResponseAt p r₁)
        (cleanupString s₂)).1 =
      (RBTree.addRequestToTree t (cleanupString s₁)).1.setLuaResponseAt p r₁ ∧
    ∀ (r₂ : T) (rest : List (String × T)),
      RBTree.buildRequestByteTree t ((s₁, r₁) :: (s₂, r₂) :: rest) =
        RBTree.buildRequestByteTree t ((s₁, r₁) :: rest) := by
  obtain ⟨q, n, c, hins, hsub, hwcn, hp, htree⟩ :=
    RBTree.addRequestToTree_star_ok t (cleanupString s₁) hodd hstar p hok
  subst hp
  have ht2eq : (RBTree.addRequestToTree t (cleanupString s₁)).1.setLuaResponseAt
      (q ++ [Edge.wc]) r₁ =
      c.updateAt q (fun nd =>
        ((fun m : RBTree T => match m with
          | RBTree.mk sb sp _ r ph len w =>
            RBTree.mk sb sp (some ((RBTree.fresh ph (len + 1)).setWildcardFlag)) r ph len w) nd).updateAt
          [Edge.wc] (fun m : RBTree T => match m with
          | RBTree.mk sb sp sw _ ph len w => RBTree.mk sb sp sw (some r₁) ph len w)) := by
    rw [htree]
    simp only [RBTree.addWildcardAt, RBTree.setLuaResponseAt]
    rw [RBTree.updateAt_append, RBTree.updateAt_updateAt]
  have hgc : ∀ m : RBTree T,
      ((fun nd =>
        ((fun m : RBTree T => match m with
          | RBTree.mk sb sp _ r ph len w =>
            RBTree.mk sb sp (some ((RBTree.fresh ph (len + 1)).setWildcardFlag)) r ph len w) nd).updateAt
          [Edge.wc] (fun m : RBTree T => match m with
          | RBTree.mk sb sp sw _ ph len w => RBTree.mk sb sp sw (some r₁) ph len w)) m).getPlaceholderCount
        = m.getPlaceholderCount := by
    intro m
    cases m
    rfl
  have hdup := RBTree.addRequestToTree_again_dup t c q n (cleanupString s₁) hodd hstar hins
    _ hgc hsub (by cases n; rfl)
  have h1 : (RBTree.addRequestToTree
      ((RBTree.addRequestToTree t (cleanupString s₁)).1.setLuaResponseAt (q ++ [Edge.wc]) r₁)
      (cleanupString s₂)).2 = Except.error TreeErr.duplicateWildcard := by
    rw [heq, ht2eq, hdup]
  have h2 : (RBTree.addRequestToTree
      ((RBTree.addRequestToTree t (cleanupString s₁)).1.setLuaResponseAt (q ++ [Edge.wc]) r₁)
      (cleanupString s₂)).1 =
      (RBTree.addRequestToTree t (cleanupString s₁)).1.setLuaResponseAt (q ++ [Edge.wc]) r₁ := by
    rw [heq, ht2eq, hdup]
  refine ⟨h1, h2, fun r₂ rest => ?_⟩
  simp only [RBTree.buildRequestByteTree, List.foldl_cons]
  rw [hok]
  dsimp only
  rw [h1, h2]

/-- Witness for `C6_second_wildcard_key_rejected` at the keys `"22 *"`. -/
theorem C6_second_wildcard_key_rejected_witness :
    (RBTree.addRequestToTree
        ((RBTree.addRequestToTree (RBTree.root : RBTree String) (cleanupString "22 *")).1.setLuaResponseAt
          [Edge.byte 0x22, Edge.wc] "A")
        (cleanupString "22 *")).2 = Except.error TreeErr.duplicateWildcard ∧
    RBTree.buildRequestByteTree (RBTree.root : RBTree String)
        [("22 *", "A"), ("22 *", "B"), ("11", "C")] =
      RBTree.buildRequestByteTree (RBTree.root : RBTree String) [("22 *", "A"), ("11", "C")] := by
  have h := C6_second_wildcard_key_rejected (RBTree.root : RBTree String) "22 *" "22 *" "A"
    [Edge.byte 0x22, Edge.wc] rfl (by decide) (by decide) rfl
  exact ⟨h.1, h.2.2 "B" [("11", "C")]⟩

/-! ## The hash helper (`getDataBytes` / `createHash`, C7)

The accumulator `receivedDataBytes` is a global mutable string in the source;
it is threaded here as explicit state.  `createHash` returns the rendered hash
together with the new (always empty) accumulator. -/

/-- Modelled from the spec: CRC-CCITT with polynomial `0x1021` and seed
`0xFFFF` (the vendored `libcrc/crcccitt.c` implementing `crc_ccitt_ffff` is not
part of the repository sources here); MSB-first, one shift-and-xor step per
bit. -/
def crcRoundBit (crc : Nat) : Nat :=
  if crc / 32768 % 2 = 1 then ((crc * 2) % 65536) ^^^ 0x1021 else (crc * 2) % 65536

/-- Modelled from the spec: one input byte of CRC-CCITT — xor into the high
byte, then eight bit rounds. -/
def crcRoundByte (crc b : Nat) : Nat :=
  (List.range 8).foldl (fun c _ => crcRoundBit c) (crc ^^^ ((b % 256) * 256))

/-- Modelled from the spec: `crc_ccitt_ffff` over a byte sequence. -/
def crcCcittFfff (bytes : List Nat) : Nat := bytes.foldl crcRoundByte 0xFFFF

/-- The `snprintf(hash, 5, "%X", crc2)` rendering of a `uint16_t`: minimal
uppercase hexadecimal digits (at most four, so the buffer never truncates),
`"0"` for zero. -/
def pctX16 (n : Nat) : List Char :=
  let ds := [hexCharOf (n / 4096 % 16), hexCharOf (n / 256 % 16),
             hexCharOf (n / 16 % 16), hexCharOf (n % 16)]
  match ds.dropWhile (fun c => c = '0') with
  | [] => ['0']
  | l => l

/-- `EcuLuaScript::getDataBytes`: strip spaces, drop the first four characters
(the two request bytes), append to the accumulator.  (When the stripped
message is shorter than four characters the C++ `substr(4, ...)` would throw
`out_of_range` out of a `noexcept` function; the model drops to the empty
suffix instead — no claim touches that corner.) -/
def getDataBytes (msg : String) (receivedDataBytes : String) : String :=
  receivedDataBytes ++ ⟨(msg.data.filter (fun c => c ≠ ' ')).drop 4⟩

/-- `EcuLuaScript::createHash`: CRC over the bytes parsed from the accumulator,
rendered with `"%X"` and zero-padded on the left to an even number of
characters; the accumulator is reset to the empty string. -/
def createHash (receivedDataBytes : String) : String × String :=
  let resp := literalHexStrToBytes receivedDataBytes
  let crc2 := crcCcittFfff resp
  let answer := pctX16 crc2
  let answer2 := if answer.length % 2 ≠ 0 then '0' :: answer else answer
  (⟨answer2⟩, "")

/-- C7 (counterexample): `createHash` over the empty accumulator returns
`"FFFF"` — the CRC seed `0xFFFF` rendered by `"%X"` — not `"0000"` as the
claim states. -/
theorem C7_empty_hash_is_FFFF_not_0000 :
    (createHash "").1 = "FFFF" ∧ "FFFF" ≠ "0000" := by
  exact ⟨rfl, by decide⟩

/-- C7 (amended): `createHash` on the empty accumulator returns `"FFFF"`;
after every call (on any accumulator contents) the accumulator is empty again,
so a second immediate call behaves as a call on the empty accumulator. -/
theorem C7_hash_resets_accumulator (acc : String) :
    (createHash "").1 = "FFFF" ∧
    (createHash acc).2 = "" ∧
    createHash ((createHash acc).2) = createHash "" := by
  exact ⟨rfl, rfl, rfl⟩

/-- Witness for `C7_hash_resets_accumulator` at a concrete accumulator. -/
theorem C7_hash_resets_accumulator_witness :
    (createHash "").1 = "FFFF" ∧
    (createHash "27 61 AB CD").2 = "" ∧
    createHash ((createHash "27 61 AB CD").2) = createHash "" := by
  exact C7_hash_resets_accumulator "27 61 AB CD"

/-! ## `EcuLuaScript::toByteResponse` (C8)

The loops write, for each rendered byte, the two nibble characters
`HEX_LUT[(value >> j) & 0x0F]`, `HEX_LUT[(value >> (j - 4)) & 0x0F]` and a
space; `str[space - 1] = 0` then cuts the final space.  `& 0x0F` is written
`% 16` on `Nat`. -/

/-- The three characters written for rendered byte index `k` of `len`:
`HEX_LUT[(value >> j) & 0x0F]`, `HEX_LUT[(value >> (j - 4)) & 0x0F]`, `' '`
with `j = (len * 2 - 1) * 4 - 8 * k = 8 * (len - 1 - k) + 4`. -/
def nibbleGroups (value len : Nat) : List (List Char) :=
  (List.range len).map (fun k =>
    [hexCharOf ((value >>> (8 * (len - 1 - k) + 4)) % 16),
     hexCharOf ((value >>> (8 * (len - 1 - k))) % 16), ' '])

def toByteResponse (value len0 : Nat) : String :=
  let len := if len0 > 4096 then 4096 else len0
  if len < 4 then
    ⟨(nibbleGroups value len).flatten.dropLast⟩
  else
    ⟨(List.replicate (len - 4) ['0', '0', ' '] ++ nibbleGroups value 4).flatten.dropLast⟩

/-! ## The UDS dispatcher (`uds_receiver.cpp`, C4 and C10)

`service_identifier.h` and the `SessionController` are declared outside the
given sources; the byte constants below and the session enumeration are
modelled from the spec (0x22/0x10/0x27 requests, 0x62/0x50/0x67 responses,
negative response `[0x7F, sid, 0x11]`, sessions Default/Programming/Extended).
Side effects on the ISO-TP sender and the session controller are recorded as
an effect trace; the Lua script's `ReadDataByIdentifier` lookup is an oracle
parameter `g session identifier` (empty string = absent), and the result of
the Raw-tree match (`getRawResponse`) is the `rawResponse` parameter. -/

inductive UdsSession : Type where
  | default : UdsSession
  | programming : UdsSession
  | extended : UdsSession
deriving DecidableEq, Repr

inductive UdsEffect : Type where
  | send (bytes : List Nat) : UdsEffect
  | sessionSet (s : UdsSession) : UdsEffect
  | timerStart : UdsEffect
  | timerReset : UdsEffect
deriving DecidableEq, Repr

/-- `UdsReceiver::readDataByIdentifier`: build the two-byte DID, look it up
(session-scoped in Programming/Extended), reply `[0x62, b1, b2, data-chars]`
on a hit and `[0x7F, 0x22, 0x11]` otherwise.  The payload appends the *string
characters* of the looked-up value as bytes, as `resp.insert` does. -/
def readDataByIdentifier (g : String → String → String) (ses : UdsSession)
    (buffer : List Nat) : List UdsEffect :=
  let dataIdentifier := ((buffer.getD 1 0) * 256 + buffer.getD 2 0) % 65536
  let data := match ses with
    | .programming => g "Programming" (toByteResponse dataIdentifier 2)
    | .extended => g "Extended" (toByteResponse dataIdentifier 2)
    | .default => g "" (toByteResponse dataIdentifier 2)
  if data ≠ "" then
    [.send ([0x62, buffer.getD 1 0, buffer.getD 2 0] ++ data.data.map Char.toNat)]
  else
    [.send [0x7F, 0x22, 0x11]]

/-- `UdsReceiver::diagnosticSessionControl`: the `switch` on the session byte
(an equality-test chain); valid ids set the session (and start the timeout
timer for Programming/Extended), an invalid id only logs — and in every case
the positive response `[0x50, sessionId]` is sent. -/
def diagnosticSessionControl (buffer : List Nat) : List UdsEffect :=
  let sessionId := buffer.getD 1 0
  (if sessionId = 0x01 then [UdsEffect.sessionSet .default]
   else if sessionId = 0x02 then [UdsEffect.sessionSet .programming, UdsEffect.timerStart]
   else if sessionId = 0x03 then [UdsEffect.sessionSet .extended, UdsEffect.timerStart]
   else []) ++ [UdsEffect.send [0x50, sessionId]]

/-- `UdsReceiver::securityAccess` (the handler the dispatcher no longer calls):
a nonempty `Seed[sub]` answers `[0x27, sub, seed-chars minus the last]` and
arms `securityAccessType_ = sub + 1`; else a matching counter answers `[0x67]`
and resets it; else `[0x7F, 0x27, 0x11]`. -/
def securityAccess (getSeed : Nat → String) (securityAccessType : Nat)
    (buffer : List Nat) : List UdsEffect × Nat :=
  let seedId := buffer.getD 1 0
  let seed := getSeed seedId
  if seed ≠ "" then
    ([.send ([0x27, seedId] ++ (seed.data.map Char.toNat).dropLast)], (seedId + 1) % 256)
  else if securityAccessType = seedId then
    ([.send [0x67]], 0)
  else
    ([.send [0x7F, 0x27, 0x11]], securityAccessType)

/-- `UdsReceiver::proceedReceivedData`: a Raw-tree match is sent verbatim and
resets the session timer; otherwise dispatch on the service byte — and the
`SECURITY_ACCESS_REQ` case is commented out in the source, so a `0x27` request
produces no effect at all. -/
def proceedReceivedData (g : String → String → String) (ses : UdsSession)
    (rawResponse : Option String) (buffer : List Nat) : List UdsEffect :=
  match rawResponse with
  | some resp => [.send (literalHexStrToBytes resp), .timerReset]
  | none =>
    if buffer.headD 0 = 0x22 then readDataByIdentifier g ses buffer ++ [.timerReset]
    else if buffer.headD 0 = 0x10 then diagnosticSessionControl buffer
    else if buffer.headD 0 = 0x27 then []
    else [.send [0x7F, buffer.headD 0, 0x11]]

/-- C4: a `[0x27, sub, ...]` request that misses the Raw tree is never
answered: the dispatcher's `securityAccess(buffer, num_bytes)` call is
commented out, so the `0x27` case falls through with no effect — no seed
reply, no `[0x67]`, no negative response — contradicting the claim that some
reply is always sent.  The orphaned `securityAccess` handler itself would have
replied (second conjunct: `[0x67]` for the armed counter). -/
theorem C4_security_access_never_answered (g : String → String → String)
    (ses : UdsSession) (rest : List Nat) :
    proceedReceivedData g ses none (0x27 :: rest) = [] ∧
    (securityAccess (fun _ => "") 1 [0x27, 0x01]).1 = [UdsEffect.send [0x67]] := by
  exact ⟨rfl, rfl⟩

/-- Witness for `C4_security_access_never_answered` at a concrete request. -/
theorem C4_security_access_never_answered_witness :
    proceedReceivedData (fun _ _ => "") UdsSession.default none (0x27 :: [0x01]) = [] ∧
    (securityAccess (fun _ => "") 1 [0x27, 0x01]).1 = [UdsEffect.send [0x67]] := by
  exact C4_security_access_never_answered (fun _ _ => "") UdsSession.default [0x01]

/-- C10: every `0x10` request of at least two bytes that misses the Raw tree
is answered with `[0x50, sub]` where `sub` is the second byte — for every
value of `sub`, including ids outside `{1, 2, 3}`; and for those invalid ids
the effect trace is exactly the send, so the current session and the
session-timeout timer are untouched. -/
theorem C10_session_control_replies_for_all_sub (g : String → String → String)
    (ses : UdsSession) (buffer : List Nat)
    (_hlen : 2 ≤ buffer.length) (hsid : buffer.headD 0 = 0x10) :
    UdsEffect.send [0x50, buffer.getD 1 0] ∈ proceedReceivedData g ses none buffer ∧
    (buffer.getD 1 0 ≠ 0x01 → buffer.getD 1 0 ≠ 0x02 → buffer.getD 1 0 ≠ 0x03 →
      proceedReceivedData g ses none buffer = [UdsEffect.send [0x50, buffer.getD 1 0]]) := by
  have hd : proceedReceivedData g ses none buffer = diagnosticSessionControl buffer := by
    unfold proceedReceivedData
    rw [hsid]
    norm_num
  rw [hd]
  constructor
  · simp only [diagnosticSessionControl]
    exact List.mem_append_right _ (List.mem_singleton_self _)
  · intro h1 h2 h3
    simp only [diagnosticSessionControl]
    rw [if_neg h1, if_neg h2, if_neg h3]
    rfl

/-- Witness for `C10_session_control_replies_for_all_sub` at sub = `0x7E`. -/
theorem C10_session_control_replies_witness :
    UdsEffect.send [0x50, 0x7E] ∈
      proceedReceivedData (fun _ _ => "") UdsSession.default none [0x10, 0x7E] ∧
    proceedReceivedData (fun _ _ => "") UdsSession.default none [0x10, 0x7E] =
      [UdsEffect.send [0x50, 0x7E]] := by
  have h := C10_session_control_replies_for_all_sub (fun _ _ => "") UdsSession.default
    [0x10, 0x7E] (by decide) (by decide)
  exact ⟨h.1, h.2 (by decide) (by decide) (by decide)⟩

/-! ## Round-trip of `toByteResponse` (C8) -/

/-- The big-endian bytes rendered for `value` into `len` positions. -/
def bytesBE (v len : Nat) : List Nat :=
  (List.range len).map (fun k => (v >>> (8 * (len - 1 - k))) % 256)

/-- One rendered byte: two hex digits and the separating space. -/
def renderGroups (bs : List Nat) : List (List Char) :=
  bs.map (fun b => [hexCharOf (b / 16), hexCharOf (b % 16), ' '])

lemma hexCharOf_ne_space (n : Nat) : hexCharOf n ≠ ' ' := by
  unfold hexCharOf
  split <;> decide

lemma isSpaceChar_hexCharOf (n : Nat) : isSpaceChar (hexCharOf n) = false := by
  unfold hexCharOf isSpaceChar
  split <;> rfl

lemma hexCharOf_ne_minus (n : Nat) : hexCharOf n ≠ '-' := by
  unfold hexCharOf
  split <;> decide

lemma hexCharOf_ne_plus (n : Nat) : hexCharOf n ≠ '+' := by
  unfold hexCharOf
  split <;> decide

lemma hexDigitVal_hexCharOf (x : Nat) (hx : x < 16) : hexDigitVal (hexCharOf x) = some x := by
  interval_cases x <;> decide

/-- The nibble shifts of the source render exactly the big-endian bytes. -/
lemma nibbleGroups_eq_render (v len : Nat) :
    nibbleGroups v len = renderGroups (bytesBE v len) := by
  unfold nibbleGroups renderGroups bytesBE
  rw [List.map_map]
  apply List.map_congr_left
  intro k _
  simp only [Function.comp]
  have h1 : (v >>> (8 * (len - 1 - k) + 4)) % 16 = ((v >>> (8 * (len - 1 - k))) % 256) / 16 := by
    rw [Nat.shiftRight_eq_div_pow, Nat.shiftRight_eq_div_pow, pow_add,
      ← Nat.div_div_eq_div_mul]
    rw [show ((2 : Nat) ^ 4) = 16 from rfl, show (256 : Nat) = 16 * 16 from rfl,
      Nat.mod_mul_right_div_self]
  have h2 : (v >>> (8 * (len - 1 - k))) % 16 = ((v >>> (8 * (len - 1 - k))) % 256) % 16 := by
    rw [Nat.mod_mod_of_dvd _ (by norm_num)]
  rw [h1, h2]

lemma bytesBE_succ (v len : Nat) :
    bytesBE v (len + 1) = (v >>> (8 * len)) % 256 :: bytesBE v len := by
  unfold bytesBE
  rw [List.range_succ_eq_map, List.map_cons, List.map_map]
  congr 1
  apply List.map_congr_left
  intro k _
  simp only [Function.comp]
  have h : len + 1 - 1 - Nat.succ k = len - 1 - k := by omega
  rw [h]

lemma bytesBE_lt (v len : Nat) : ∀ b ∈ bytesBE v len, b < 256 := by
  intro b hb
  unfold bytesBE at hb
  simp only [List.mem_map] at hb
  obtain ⟨k, _, hk⟩ := hb
  omega

/-- Big-endian reconstruction: folding the rendered bytes with
`acc * 256 + b` recovers `v` modulo `2 ^ (8 * len)`. -/
lemma foldl_bytesBE (v : Nat) : ∀ (len acc : Nat),
    (bytesBE v len).foldl (fun a b => a * 256 + b) acc = acc * 2 ^ (8 * len) + v % 2 ^ (8 * len)
  | 0, acc => by simp [bytesBE, Nat.mod_one]
  | len + 1, acc => by
      rw [bytesBE_succ, List.foldl_cons, foldl_bytesBE v len]
      have hpow : (2 : Nat) ^ (8 * (len + 1)) = 2 ^ (8 * len) * 256 := by
        rw [show 8 * (len + 1) = 8 * len + 8 by ring, pow_add]
        norm_num
      have hmod : v % (2 ^ (8 * len) * 256) =
          v % 2 ^ (8 * len) + 2 ^ (8 * len) * (v / 2 ^ (8 * len) % 256) := Nat.mod_mul
      rw [hpow, hmod, Nat.shiftRight_eq_div_pow]
      ring

lemma foldl_zero_bytes : ∀ (k : Nat),
    (List.replicate k 0).foldl (fun a b => a * 256 + b) 0 = 0
  | 0 => rfl
  | k + 1 => by
      rw [List.replicate_succ, List.foldl_cons]
      exact foldl_zero_bytes k

/-- A rendered group list ends in the separating space. -/
lemma render_flatten_last (bs : List Nat) (h : bs ≠ []) :
    ((renderGroups bs).flatten).getLast? = some ' ' := by
  induction bs with
  | nil => cases h rfl
  | cons b bs ih =>
    cases bs with
    | nil => rfl
    | cons b' bs' =>
      have hlast := ih (by simp)
      have hne : ((renderGroups (b' :: bs')).flatten) ≠ [] := by
        intro e
        rw [e] at hlast
        simp at hlast
      rw [show (renderGroups (b :: b' :: bs')).flatten =
        [hexCharOf (b / 16), hexCharOf (b % 16), ' '] ++ (renderGroups (b' :: bs')).flatten
        from rfl]
      rw [List.getLast?_append_of_ne_nil _ hne]
      exact hlast

/-- Filtering out spaces ignores the dropped final character of a list ending
in a space. -/
lemma filter_dropLast_of_last_space (l : List Char) (h : l.getLast? = some ' ') :
    l.dropLast.filter (fun c => c ≠ ' ') = l.filter (fun c => c ≠ ' ') := by
  have hne : l ≠ [] := by
    rintro rfl
    simp at h
  conv_rhs => rw [← List.dropLast_append_getLast hne]
  rw [List.filter_append]
  have hlast : l.getLast hne = ' ' := by
    have h2 := List.getLast?_eq_getLast l hne
    rw [h2] at h
    exact Option.some.inj h
  rw [hlast]
  simp

/-- Dropping the final character (the trailing space overwritten with the
string terminator) does not change the space-stripped content. -/
lemma dropLast_filter_render (bs : List Nat) :
    (((renderGroups bs).flatten).dropLast).filter (fun c => c ≠ ' ') =
      ((renderGroups bs).flatten).filter (fun c => c ≠ ' ') := by
  cases bs with
  | nil => rfl
  | cons b bs => exact filter_dropLast_of_last_space _ (render_flatten_last _ (by simp))

/-- Space-stripping a rendered group list leaves the hex-digit pairs. -/
lemma filter_render : ∀ (bs : List Nat),
    ((renderGroups bs).flatten).filter (fun c => c ≠ ' ') =
      (bs.map (fun b => [hexCharOf (b / 16), hexCharOf (b % 16)])).flatten
  | [] => rfl
  | b :: bs => by
      rw [show (renderGroups (b :: bs)) =
        [hexCharOf (b / 16), hexCharOf (b % 16), ' '] :: renderGroups bs from rfl]
      rw [show ((b :: bs).map (fun b => [hexCharOf (b / 16), hexCharOf (b % 16)])) =
        [hexCharOf (b / 16), hexCharOf (b % 16)] ::
          bs.map (fun b => [hexCharOf (b / 16), hexCharOf (b % 16)]) from rfl]
      rw [List.flatten_cons, List.flatten_cons, List.filter_append, filter_render bs]
      congr 1
      simp [hexCharOf_ne_space]

/-- `substr(i, 2)` chunking recovers the rendered two-character groups. -/
lemma chunks2_pairs (f g : Nat → Char) : ∀ (bs : List Nat),
    chunks2 ((bs.map (fun b => [f b, g b])).flatten) = bs.map (fun b => [f b, g b])
  | [] => rfl
  | b :: bs => by
      rw [show ((b :: bs).map (fun b => [f b, g b])) =
        [f b, g b] :: bs.map (fun b => [f b, g b]) from rfl, List.flatten_cons]
      rw [show chunks2 (([f b, g b] : List Char) ++ (bs.map (fun b => [f b, g b])).flatten) =
        [f b, g b] :: chunks2 ((bs.map (fun b => [f b, g b])).flatten) from rfl]
      rw [chunks2_pairs f g bs]

/-- `strtol(chunk, NULL, 16)` of a rendered pair recovers the byte. -/
lemma parse_hex_pair (b : Nat) (hb : b < 256) :
    toUInt8Cast (strtolHex [hexCharOf (b / 16), hexCharOf (b % 16)]) = b := by
  have h1 : b / 16 < 16 := by omega
  have h2 : b % 16 < 16 := by omega
  unfold strtolHex strtolVal
  rw [List.dropWhile_cons, isSpaceChar_hexCharOf]
  simp only [Bool.false_eq_true, if_false]
  rw [if_neg (hexCharOf_ne_minus _), if_neg (hexCharOf_ne_plus _)]
  unfold digitRunVal
  rw [List.takeWhile_cons, hexDigitVal_hexCharOf _ h1]
  simp only [Option.isSome_some, if_true]
  rw [List.takeWhile_cons, hexDigitVal_hexCharOf _ h2]
  simp only [Option.isSome_some, if_true, List.takeWhile_nil]
  simp only [List.foldl_cons, List.foldl_nil]
  rw [hexDigitVal_hexCharOf _ h1, hexDigitVal_hexCharOf _ h2]
  simp only [Option.getD_some]
  have hval : (0 * 16 + b / 16) * 16 + b % 16 = b := by omega
  rw [hval]
  unfold toUInt8Cast
  omega

/-- `literalHexStrToBytes` inverts the rendering of a byte list. -/
lemma literalHex_render (bs : List Nat) (hbs : ∀ b ∈ bs, b < 256) :
    literalHexStrToBytes ⟨((renderGroups bs).flatten).dropLast⟩ = bs := by
  unfold literalHexStrToBytes
  rw [show (String.mk (((renderGroups bs).flatten).dropLast)).data =
    ((renderGroups bs).flatten).dropLast from rfl]
  rw [dropLast_filter_render, filter_render, chunks2_pairs, List.map_map]
  conv_rhs => rw [← List.map_id bs]
  apply List.map_congr_left
  intro b hbmem
  simp only [Function.comp, id]
  exact parse_hex_pair b (hbs b hbmem)

/-- C8: for every 32-bit value `v` and every `n ≥ 1`, `toByteResponse v n`
renders exactly `min n 4096` bytes, and stripping the whitespace and parsing
the hex string back as a big-endian integer yields `v` truncated to the low
`min n 4096` bytes. -/
theorem C8_toByteResponse_roundtrip (v n : Nat) (hv : v < 2 ^ 32) (hn : 1 ≤ n) :
    (literalHexStrToBytes (toByteResponse v n)).length = min n 4096 ∧
    (literalHexStrToBytes (toByteResponse v n)).foldl (fun acc b => acc * 256 + b) 0 =
      v % 2 ^ (8 * min n 4096) := by
  have hminlen : (if n > 4096 then 4096 else n) = min n 4096 := by
    split <;> omega
  by_cases hlt : min n 4096 < 4
  · have htb : toByteResponse v n =
        ⟨((renderGroups (bytesBE v (min n 4096))).flatten).dropLast⟩ := by
      simp only [toByteResponse]
      rw [hminlen, if_pos hlt, nibbleGroups_eq_render]
    rw [htb, literalHex_render _ (bytesBE_lt v _)]
    constructor
    · simp [bytesBE]
    · rw [foldl_bytesBE]
      simp
  · have htb : toByteResponse v n =
        ⟨((renderGroups (List.replicate (min n 4096 - 4) 0 ++ bytesBE v 4)).flatten).dropLast⟩ := by
      simp only [toByteResponse]
      rw [hminlen, if_neg hlt]
      have hsplit : renderGroups (List.replicate (min n 4096 - 4) 0 ++ bytesBE v 4) =
          renderGroups (List.replicate (min n 4096 - 4) 0) ++ renderGroups (bytesBE v 4) :=
        List.map_append _ _ _
      rw [hsplit, nibbleGroups_eq_render]
      have hz : renderGroups (List.replicate (min n 4096 - 4) 0) =
          List.replicate (min n 4096 - 4) ['0', '0', ' '] := by
        unfold renderGroups
        rw [List.map_replicate]
        norm_num
        exact Or.inr rfl
      rw [hz]
    have hmem : ∀ b ∈ List.replicate (min n 4096 - 4) 0 ++ bytesBE v 4, b < 256 := by
      intro b hbmem
      rcases List.mem_append.mp hbmem with hmem1 | hmem2
      · rw [List.eq_of_mem_replicate hmem1]
        norm_num
      · exact bytesBE_lt v 4 b hmem2
    rw [htb, literalHex_render _ hmem]
    constructor
    · simp only [List.length_append, List.length_replicate]
      simp [bytesBE]
      omega
    · rw [List.foldl_append, foldl_zero_bytes, foldl_bytesBE]
      simp only [Nat.zero_mul, Nat.zero_add]
      have h32 : v % 2 ^ (8 * 4) = v := Nat.mod_eq_of_lt (by exact hv)
      have hbig : v % 2 ^ (8 * min n 4096) = v :=
        Nat.mod_eq_of_lt (lt_of_lt_of_le hv (Nat.pow_le_pow_right (by norm_num) (by omega)))
      rw [h32, hbig]

/-- Witness for `C8_toByteResponse_roundtrip` at `v = 13248`, `n = 2`
(the documented example `toByteResponse(13248, 2) = "33 C0"`). -/
theorem C8_toByteResponse_roundtrip_witness :
    (literalHexStrToBytes (toByteResponse 13248 2)).length = min 2 4096 ∧
    (literalHexStrToBytes (toByteResponse 13248 2)).foldl (fun acc b => acc * 256 + b) 0 =
      13248 % 2 ^ (8 * min 2 4096) := by
  exact C8_toByteResponse_roundtrip 13248 2 (by norm_num) (by norm_num)

/-! ## `J1939Simulator::parsePGN` (C9) -/

/-- `J1939Simulator::parsePGN`: when `strnlen(pgn.c_str(), 6) < 6`, try
`strtol(pgn, NULL, 10)` cast to `uint32_t`; when that value is 0 or above
99999, fall back to reading the string as little-endian hex bytes (at most
three; more bytes leave 0).  PGN strings never contain an embedded NUL, so
`strnlen` is the string length. -/
def parsePGN (pgn : String) : Nat :=
  let pgnNum0 : Nat :=
    if pgn.length < 6 then toUInt32Cast (strtolDec pgn.data) else 0
  if pgnNum0 = 0 ∨ pgnNum0 > 99999 then
    let pgnBytes := literalHexStrToBytes pgn
    if pgnBytes.length ≤ 3 then
      pgnBytes.reverse.foldl (fun acc b => acc * 256 + b % 256) 0
    else 0
  else pgnNum0

/-- The value of the leading run of decimal digits (what `strtol(..., 10)`
consumes when no whitespace or sign precedes it). -/
def leadingDecValue (cs : List Char) : Nat := digitRunVal decDigitVal 10 cs

/-- The claim's reading of PGN parsing (C9), following the spec's words: the
string is decimal exactly when it has fewer than six *non-separator*
characters and those characters parse as a positive decimal number below
100000; every other string is read as up to three little-endian hex bytes. -/
def parsePGN_claim (pgn : String) : Nat :=
  let core := cleanupString pgn
  let dec := core.data.foldl (fun a c => a * 10 + (decDigitVal c).getD 0) 0
  if core.length < 6 ∧ core.data ≠ [] ∧
      core.data.all (fun c => (decDigitVal c).isSome) ∧ 0 < dec ∧ dec < 100000 then
    dec
  else
    let pgnBytes := literalHexStrToBytes pgn
    if pgnBytes.length ≤ 3 then
      pgnBytes.reverse.foldl (fun acc b => acc * 256 + b % 256) 0
    else 0

/-- C9 (counterexample): the source counts *all* characters (`strnlen`), not
the non-separator ones.  `"1 2345"` has five non-separator characters and
reads as the decimal 12345 under the claim, but its total length is six, so
the code skips the decimal branch and parses it as the little-endian hex
bytes `12 34 05`, returning 341010. -/
theorem C9_separator_characters_count :
    parsePGN "1 2345" = 341010 ∧ parsePGN_claim "1 2345" = 12345 ∧
    (341010 : Nat) ≠ 12345 := by
  exact ⟨rfl, rfl, by decide⟩

lemma hexDigit_not_space (c : Char) (h : (hexDigitVal c).isSome) : isSpaceChar c = false := by
  by_contra hc
  have hc2 : isSpaceChar c = true := by
    cases hiss : isSpaceChar c
    · exact absurd hiss hc
    · rfl
  unfold isSpaceChar at hc2
  simp only [decide_eq_true_eq] at hc2
  rcases hc2 with rfl | rfl | rfl | rfl | rfl | rfl <;> exact absurd h (by decide)

/-- With a non-space, non-sign head, `strtol(..., 10)` is the leading digit
run. -/
lemma strtolDec_eq_leading (cs : List Char)
    (hhead : ∀ c, cs.head? = some c → (hexDigitVal c).isSome) :
    strtolDec cs = (leadingDecValue cs : Int) := by
  cases cs with
  | nil => rfl
  | cons c rest =>
    have hc := hhead c rfl
    have hnsp := hexDigit_not_space c hc
    have hm : c ≠ '-' := by
      rintro rfl
      exact absurd hc (by decide)
    have hp : c ≠ '+' := by
      rintro rfl
      exact absurd hc (by decide)
    unfold strtolDec strtolVal
    rw [List.dropWhile_cons, hnsp]
    simp only [Bool.false_eq_true, if_false]
    rw [if_neg hm, if_neg hp]
    rfl

lemma decDigitVal_getD_lt (c : Char) : (decDigitVal c).getD 0 < 10 := by
  unfold decDigitVal
  split
  · rename_i h
    simp only [Option.getD_some]
    omega
  · simp

lemma foldl_dec_digits_lt : ∀ (ds : List Char) (acc : Nat),
    ds.foldl (fun a c => a * 10 + (decDigitVal c).getD 0) acc < (acc + 1) * 10 ^ ds.length
  | [], acc => by simp
  | c :: ds, acc => by
      rw [List.foldl_cons]
      have h1 := foldl_dec_digits_lt ds (acc * 10 + (decDigitVal c).getD 0)
      have h2 := decDigitVal_getD_lt c
      calc (ds.foldl (fun a c => a * 10 + (decDigitVal c).getD 0)
              (acc * 10 + (decDigitVal c).getD 0))
          < (acc * 10 + (decDigitVal c).getD 0 + 1) * 10 ^ ds.length := h1
        _ ≤ ((acc + 1) * 10) * 10 ^ ds.length := by
            apply Nat.mul_le_mul_right
            omega
        _ = (acc + 1) * 10 ^ (ds.length + 1) := by ring
        _ = (acc + 1) * 10 ^ (c :: ds).length := by rw [List.length_cons]

lemma takeWhile_len_le (p : Char → Bool) : ∀ (l : List Char),
    (l.takeWhile p).length ≤ l.length
  | [] => Nat.le_refl 0
  | a :: l => by
      rw [List.takeWhile_cons]
      cases h : p a
      · simp
      · simp only [if_true, List.length_cons]
        exact Nat.succ_le_succ (takeWhile_len_le p l)

lemma leadingDecValue_lt (cs : List Char) : leadingDecValue cs < 10 ^ cs.length := by
  unfold leadingDecValue digitRunVal
  have h1 := foldl_dec_digits_lt (cs.takeWhile (fun c => (decDigitVal c).isSome)) 0
  have h2 : (cs.takeWhile (fun c => (decDigitVal c).isSome)).length ≤ cs.length :=
    takeWhile_len_le _ cs
  calc (cs.takeWhile (fun c => (decDigitVal c).isSome)).foldl
          (fun a c => a * 10 + (decDigitVal c).getD 0) 0
      < (0 + 1) * 10 ^ (cs.takeWhile (fun c => (decDigitVal c).isSome)).length := h1
    _ = 10 ^ (cs.takeWhile (fun c => (decDigitVal c).isSome)).length := by ring
    _ ≤ 10 ^ cs.length := Nat.pow_le_pow_right (by norm_num) h2

/-- C9 (amended): for PGN strings made of hexadecimal digits and spaces that
do not start with a space (every string the call sites produce), the decimal
interpretation is chosen exactly when the *total* character count (separators
included) is below six and the leading decimal-digit run is positive —
otherwise the string parses as little-endian hex bytes, at most three, 0 when
more. -/
theorem C9_parsePGN_total_length_rule (s : String)
    (hchars : ∀ c ∈ s.data, (hexDigitVal c).isSome ∨ c = ' ')
    (hhead : s.data.head? ≠ some ' ') :
    parsePGN s =
      if s.length < 6 ∧ 0 < leadingDecValue s.data then leadingDecValue s.data
      else if (literalHexStrToBytes s).length ≤ 3 then
        (literalHexStrToBytes s).reverse.foldl (fun acc b => acc * 256 + b % 256) 0
      else 0 := by
  have hheadhex : ∀ c, s.data.head? = some c → (hexDigitVal c).isSome := by
    intro c hc
    rcases hchars c (List.mem_of_mem_head? (by rw [hc]; rfl)) with h | h
    · exact h
    · subst h
      exact absurd hc hhead
  have hlead := strtolDec_eq_leading s.data hheadhex
  simp only [parsePGN]
  by_cases hlen : s.length < 6
  · rw [if_pos hlen, hlead]
    have hbound : leadingDecValue s.data < 100000 := by
      have hle : (10 : Nat) ^ s.data.length ≤ 10 ^ 5 := by
        apply Nat.pow_le_pow_right (by norm_num)
        have : s.length = s.data.length := rfl
        omega
      have := leadingDecValue_lt s.data
      omega
    have hcast : toUInt32Cast ((leadingDecValue s.data : Int)) = leadingDecValue s.data := by
      unfold toUInt32Cast
      omega
    rw [hcast]
    by_cases hz : leadingDecValue s.data = 0
    · rw [if_pos (Or.inl hz), if_neg (show ¬(s.length < 6 ∧ 0 < leadingDecValue s.data) by
        rintro ⟨h1, h2⟩
        omega)]
    · rw [if_neg (show ¬(leadingDecValue s.data = 0 ∨ leadingDecValue s.data > 99999) by
        rintro (h | h) <;> omega)]
      rw [if_pos ⟨hlen, Nat.pos_of_ne_zero hz⟩]
  · rw [if_neg hlen, if_pos (Or.inl rfl), if_neg (show
      ¬(s.length < 6 ∧ 0 < leadingDecValue s.data) by
        rintro ⟨h1, h2⟩
        exact hlen h1)]

/-- Witness for `C9_parsePGN_total_length_rule` at the key `"65226"`. -/
theorem C9_parsePGN_total_length_rule_witness :
    parsePGN "65226" =
      if ("65226" : String).length < 6 ∧ 0 < leadingDecValue ("65226" : String).data then
        leadingDecValue ("65226" : String).data
      else if (literalHexStrToBytes "65226").length ≤ 3 then
        (literalHexStrToBytes "65226").reverse.foldl (fun acc b => acc * 256 + b % 256) 0
      else 0 := by
  exact C9_parsePGN_total_length_rule "65226" (by decide) (by decide)

end CarSim
